import Mathlib

/-!
Shallow embedding of the `coreset_selection` backend
(`src/backend/media_processor.py` and `src/backend/main.py`)
and verification of the extraction-contract claims.

Python strings are Lean `String`s, Python ints are `Nat`, and the
float-valued quantities `int(fps * frame_interval)` and
`int(duration * fps)` enter the model already truncated, as the naturals
`stepN` and `totalFrames` of each video.  Filesystem writes are modelled
symbolically: processing returns the list of paths the code would write,
in the order it writes them.  The `uuid.uuid4()` stream is modelled as a
supply `uuids : Nat → String`, the k-th call returning `uuids k`.
-/

deriving instance DecidableEq for Except

namespace CoresetSelection

/-! ### Decimal rendering: Python `str(i)` and `f"{i:04d}"` -/

/-- The decimal digit characters of `n`, most significant first
(the model of Python `str(n)` for a natural `n`). -/
def natDecimal (n : Nat) : List Char :=
  if n = 0 then ['0'] else (Nat.digits 10 n).reverse.map (fun d => Char.ofNat (48 + d))

/-- Left-pad a character list with `'0'` to width `w`
(Python's zero-padding in `f"{i:04d}"`). -/
def padZeros (w : Nat) (cs : List Char) : List Char :=
  List.replicate (w - cs.length) '0' ++ cs

/-- Python `f"{i:04d}"`: the decimal rendering of `i`, zero-padded to at
least four characters. -/
def pad4 (n : Nat) : String :=
  String.mk (padZeros 4 (natDecimal n))

/-- Numeric value of a decimal digit character. -/
def digitVal (c : Char) : Nat := c.toNat - 48

/-- Reads a zero-padded decimal character list back to the natural it
renders; the left inverse used to prove `pad4` injective. -/
def unpadDecimal (cs : List Char) : Nat :=
  Nat.ofDigits 10 ((cs.map digitVal).reverse)

theorem ofDigits_replicate_zero (b : Nat) : ∀ k, Nat.ofDigits b (List.replicate k 0) = 0 := by
  intro k
  induction k with
  | zero => simp [Nat.ofDigits]
  | succ k ih => simp [List.replicate_succ, Nat.ofDigits_cons, ih]

theorem digitVal_char_of_lt_ten {d : Nat} (hd : d < 10) :
    digitVal (Char.ofNat (48 + d)) = d := by
  interval_cases d <;> decide

theorem unpadDecimal_natDecimal (n : Nat) : unpadDecimal (natDecimal n) = n := by
  by_cases h0 : n = 0
  · subst h0; decide
  · unfold natDecimal unpadDecimal
    rw [if_neg h0]
    rw [List.map_reverse, List.map_reverse, List.reverse_reverse]
    rw [List.map_map]
    have hmap : (Nat.digits 10 n).map (digitVal ∘ fun d => Char.ofNat (48 + d)) =
        (Nat.digits 10 n).map id := by
      apply List.map_congr_left
      intro d hd
      have : d < 10 := Nat.digits_lt_base (by norm_num) hd
      simp [Function.comp, digitVal_char_of_lt_ten this]
    rw [hmap, List.map_id, Nat.ofDigits_digits]

theorem unpadDecimal_padZeros (w : Nat) (n : Nat) :
    unpadDecimal (padZeros w (natDecimal n)) = n := by
  unfold padZeros unpadDecimal
  rw [List.map_append, List.reverse_append]
  have hrep : (List.replicate (w - (natDecimal n).length) '0').map digitVal
      = List.replicate (w - (natDecimal n).length) 0 := by
    simp [List.map_replicate, digitVal]
  rw [hrep, List.reverse_replicate, Nat.ofDigits_append, ofDigits_replicate_zero,
    Nat.mul_zero, Nat.add_zero]
  exact unpadDecimal_natDecimal n

theorem pad4_injective : Function.Injective pad4 := by
  intro a b h
  have hdata : padZeros 4 (natDecimal a) = padZeros 4 (natDecimal b) :=
    congrArg String.data h
  calc a = unpadDecimal (padZeros 4 (natDecimal a)) := (unpadDecimal_padZeros 4 a).symm
    _ = unpadDecimal (padZeros 4 (natDecimal b)) := by rw [hdata]
    _ = b := unpadDecimal_padZeros 4 b

theorem natDecimal_no_underscore (n : Nat) : '_' ∉ natDecimal n := by
  unfold natDecimal
  by_cases h0 : n = 0
  · rw [if_pos h0]; decide
  · rw [if_neg h0]
    intro hmem
    rw [List.mem_map] at hmem
    obtain ⟨d, hd, hchar⟩ := hmem
    rw [List.mem_reverse] at hd
    have hlt : d < 10 := Nat.digits_lt_base (by norm_num) hd
    have : ∀ d' : Nat, d' < 10 → Char.ofNat (48 + d') ≠ '_' := by decide
    exact this d hlt hchar

/-! ### Path helpers: `pathlib.Path.suffix` / `.stem`, `str.lower` -/

/-- Index of the last `'.'` in a character list, if any. -/
def rfindDotIdx (cs : List Char) : Option Nat :=
  match cs.reverse.findIdx? (fun c => c == '.') with
  | none => none
  | some j => some (cs.length - 1 - j)

/-- `pathlib.PurePath.suffix` of a final path component: the part from the
last dot on, empty when the dot is absent, leading, or trailing
(CPython: return `name[i:]` when `0 < i < len(name) - 1`, else `''`). -/
def pathSuffix (name : String) : String :=
  match rfindDotIdx name.data with
  | none => ""
  | some i =>
    if 0 < i ∧ i < name.data.length - 1 then String.mk (name.data.drop i) else ""

/-- `pathlib.PurePath.stem`: the final component without its suffix. -/
def pathStem (name : String) : String :=
  match rfindDotIdx name.data with
  | none => name
  | some i =>
    if 0 < i ∧ i < name.data.length - 1 then String.mk (name.data.take i) else name

/-- Python `str.lower` (ASCII case folding, as used on extensions):
lower-case every character. -/
def strLower (s : String) : String := String.mk (s.data.map Char.toLower)

/-- Python `str.endswith`: `post` is a suffix of `s`. -/
def strEndsWith (s post : String) : Bool := post.data.isSuffixOf s.data

/-- `file_path.suffix.lower()`, the key used for dispatch in
`MediaProcessor._process_files` (media_processor.py line 175). -/
def fileExt (name : String) : String := strLower (pathSuffix name)

/-- `MediaProcessor.supported_image_extensions` (media_processor.py line 69). -/
def supportedImageExtensions : List String :=
  [".jpg", ".jpeg", ".png", ".bmp", ".tiff", ".gif"]

/-- `MediaProcessor.supported_video_extensions` (media_processor.py line 70). -/
def supportedVideoExtensions : List String :=
  [".mp4", ".avi", ".mov", ".mkv", ".wmv", ".flv"]

/-- The dispatch condition of media_processor.py line 178:
`file_extension in self.supported_image_extensions`. -/
def isImageFile (name : String) : Bool :=
  supportedImageExtensions.contains (fileExt name)

/-- The dispatch condition of media_processor.py line 184:
`file_extension in self.supported_video_extensions`. -/
def isVideoFile (name : String) : Bool :=
  supportedVideoExtensions.contains (fileExt name)

/-! ### The media model -/

/-- Oracle for the filesystem / codec outcomes of one extracted file:
whether `shutil.copy2` succeeds, whether `imageio.get_reader` and the
metadata reads succeed, the truncated products `int(fps * frame_interval)`
and `int(duration * fps)`, and which `reader.get_data(frame_idx)` /
`imwrite` round trips succeed. -/
structure MediaOracle where
  copyOk : Bool
  openOk : Bool
  stepN : Nat
  totalFrames : Nat
  frameOk : Nat → Bool

/-- One regular file found by the `os.walk` over the extraction scratch
directory: its final path component and its media oracle. -/
structure SrcFile where
  name : String
  media : MediaOracle

/-- The processor configuration: the `uuid.uuid4()` supply (k-th call
returns `uuids k`), the output directory (a path string), and
`max_frames_per_video`. -/
structure Config where
  uuids : Nat → String
  outputDir : String
  maxFramesPerVideo : Nat

/-! ### Frame-index calculation (`MediaProcessor._calculate_frame_indices`) -/

/-- Python `range(start, stop, step)` for a positive `step`: the
arithmetic progression `start, start + step, ...` strictly below `stop`
(CPython computes its length as `((stop - start) + step - 1) // step`). -/
def pyRange (start stop step : Nat) : List Nat :=
  (List.range ((stop - start + step - 1) / step)).map (fun i => start + i * step)

/-- The accumulation loop of `_calculate_frame_indices`
(media_processor.py lines 314-318): for each `i` of the range, break when
`len(frame_indices) >= max_frames_per_video`, else append `i`. -/
def calcLoop (maxF : Nat) (acc : List Nat) : List Nat → List Nat
  | [] => acc
  | i :: rest => if maxF ≤ acc.length then acc else calcLoop maxF (acc ++ [i]) rest

/-- `MediaProcessor._calculate_frame_indices` (media_processor.py lines
293-321), with `N = int(fps * self.frame_interval)` and
`total = int(duration * fps)` already truncated.  When `N = 0`, Python's
`range(0, total, 0)` raises `ValueError`, modelled as the error case. -/
def calculateFrameIndices (N total maxF : Nat) : Except String (List Nat) :=
  if N = 0 then Except.error "range() arg 3 must not be zero"
  else Except.ok (calcLoop maxF [] (pyRange 0 total N))

/-! ### Per-file processing -/

/-- The frame filename built at media_processor.py line 269:
`f"{video_prefix}_frame_{i:04d}.jpg"` for tag `video_prefix`. -/
def frameFilename (tag : String) (i : Nat) : String :=
  tag ++ "_frame_" ++ pad4 i ++ ".jpg"

/-- The frame-extraction loop of `_process_video` (media_processor.py
lines 260-284): enumerate the frame indices as `(i, idx)`, break once
`i >= max_frames_per_video`, and for each surviving index append the
written path `output_dir / frame_filename` when the read/write round trip
succeeds, skipping the frame otherwise. -/
def videoLoop (dir tag : String) (maxF : Nat) (fOk : Nat → Bool) : Nat → List Nat → List String
  | _, [] => []
  | i, idx :: rest =>
    if maxF ≤ i then []
    else if fOk idx then
      (dir ++ "/" ++ frameFilename tag i) :: videoLoop dir tag maxF fOk (i + 1) rest
    else videoLoop dir tag maxF fOk (i + 1) rest

/-- `MediaProcessor._process_video` (media_processor.py lines 228-291) for
the file's fresh uuid `u`: the tag is `f"{uuid4()}_{video_path.stem}"`
(line 245); failure to open the reader or read the metadata, and the
`ValueError` from a zero stride, are caught by the outer handler, which
returns `[]` (lines 289-291). -/
def processVideo (dir u : String) (maxF : Nat) (f : SrcFile) : List String :=
  let tag := u ++ "_" ++ pathStem f.name
  if f.media.openOk then
    match calculateFrameIndices f.media.stepN f.media.totalFrames maxF with
    | Except.error _ => []
    | Except.ok indices => videoLoop dir tag maxF f.media.frameOk 0 indices
  else []

/-- `MediaProcessor._process_image` (media_processor.py lines 195-226) for
the file's fresh uuid `u`: the copy target is
`output_dir / f"{uuid4()}_{image_path.name}"` (lines 210-211); a failing
copy is caught and yields `None`. -/
def processImage (dir u : String) (f : SrcFile) : Option String :=
  if f.media.copyOk then some (dir ++ "/" ++ (u ++ "_" ++ f.name)) else none

/-- `MediaProcessor._process_files` (media_processor.py lines 156-193):
walk the extracted files in order, dispatch on the lower-cased suffix,
collect the written paths.  The counter `c` is the number of `uuid4()`
calls made so far; each image or video consumes exactly one. -/
def processFiles (cfg : Config) : Nat → List SrcFile → List String
  | _, [] => []
  | c, f :: rest =>
    if isImageFile f.name then
      match processImage cfg.outputDir (cfg.uuids c) f with
      | some p => p :: processFiles cfg (c + 1) rest
      | none => processFiles cfg (c + 1) rest
    else if isVideoFile f.name then
      processVideo cfg.outputDir (cfg.uuids c) cfg.maxFramesPerVideo f
        ++ processFiles cfg (c + 1) rest
    else processFiles cfg c rest

/-- Number of `uuid4()` calls `_process_files` makes over a file list:
one per image or video, none for ignored files. -/
def uuidCalls : List SrcFile → Nat
  | [] => 0
  | f :: rest => (if isImageFile f.name || isVideoFile f.name then 1 else 0) + uuidCalls rest

/-! ### `process` and the scratch directory -/

/-- Outcome of `zipfile.ZipFile(...).extractall`: either the list of
regular files the walk will find, or the exception it raised. -/
inductive ZipOutcome where
  | ok (files : List SrcFile)
  | extractError (msg : String)

/-- Observable end state of one `process` run: whether the scratch
extraction directory still exists, and the paths written. -/
structure FsState where
  scratchExists : Bool
  written : List String
deriving DecidableEq

/-- `MediaProcessor._extract_zip` (media_processor.py lines 127-154).
The first component records whether the scratch directory exists when the
call finishes: `mkdir` creates it, and the handler removes it again
before re-raising (lines 150-154). -/
def extractZip (z : ZipOutcome) : Bool × Except String (List SrcFile) :=
  match z with
  | ZipOutcome.ok files => (true, Except.ok files)
  | ZipOutcome.extractError e => (false, Except.error e)

/-- `MediaProcessor.process` (media_processor.py lines 91-125): extract,
process all files, `shutil.rmtree(temp_dir)`, return the collected paths;
any exception is logged and re-raised (lines 123-125). -/
def process (cfg : Config) (z : ZipOutcome) : FsState × Except String (List String) :=
  match extractZip z with
  | (scratch, Except.error e) => (⟨scratch, []⟩, Except.error e)
  | (_, Except.ok files) =>
    let outs := processFiles cfg 0 files
    (⟨false, outs⟩, Except.ok outs)

/-! ### The HTTP upload validation (`main.py`) -/

/-- `UPLOAD_DIR = Path("static/images")` (main.py line 35); note it is a
relative path. -/
def UPLOAD_DIR : String := "static/images"

/-- What an upload endpoint does with a request before any filesystem
work: reject with a status code and message, or accept. -/
inductive UploadDecision where
  | rejected (statusCode : Nat) (msg : String)
  | accepted
deriving DecidableEq

/-- The condition `not file.filename or not
file.filename.lower().endswith('.zip')` of main.py lines 179 and 296
(`None` and the empty string are falsy). -/
def filenameRejected (filename : Option String) : Bool :=
  match filename with
  | none => true
  | some s => s == "" || !(strEndsWith (strLower s) ".zip")

/-- The validation prefix shared verbatim by `upload_zip` (main.py lines
177-190) and `upload_and_curate` (main.py lines 294-307): reject with 400
on a non-zip filename, then with 400 on `not 0.0 <= sampling_factor <=
1.0`, else proceed.  The float `sampling_factor` is modelled as a
rational. -/
def validateUpload (filename : Option String) (samplingFactor : ℚ) : UploadDecision :=
  if filenameRejected filename then
    UploadDecision.rejected 400 "File must be a zip file"
  else if ¬(0 ≤ samplingFactor ∧ samplingFactor ≤ 1) then
    UploadDecision.rejected 400 "Sampling factor must be between 0.0 and 1.0"
  else UploadDecision.accepted

/-! ### Derived shapes and concrete test fixtures -/

/-- The canonical shape of every path `_process_files` emits: output
directory, slash, the uuid of the file's `uuid4()` call, underscore,
and a file-specific tail. -/
def outName (cfg : Config) (k : Nat) (t : String) : String :=
  cfg.outputDir ++ "/" ++ (cfg.uuids k ++ "_" ++ t)

/-- POSIX `os.path.isabs`: a path is absolute when it starts with `'/'`. -/
def isAbsolutePath (s : String) : Bool :=
  match s.data with
  | '/' :: _ => true
  | _ => false

/-- A concrete uuid supply for test runs: `"u"`, `"ux"`, `"uxx"`, ...
(injective, and free of underscores, like real `uuid4` hex strings). -/
def testUuids (k : Nat) : String := String.mk ('u' :: List.replicate k 'x')

/-- Oracle of a perfectly healthy image file. -/
def imgOracle : MediaOracle := ⟨true, true, 1, 0, fun _ => true⟩

/-- Oracle of an image file whose `shutil.copy2` raises. -/
def badImgOracle : MediaOracle := ⟨false, true, 1, 0, fun _ => true⟩

/-- Oracle of a healthy one-frame video (`fps = 1`, one total frame). -/
def vidOracle : MediaOracle := ⟨true, true, 1, 1, fun _ => true⟩

/-- Oracle of a video whose `imageio.get_reader` raises. -/
def badVidOracle : MediaOracle := ⟨true, false, 1, 1, fun _ => true⟩

/-- Oracle of a video with `int(fps * frame_interval) = 0` (for example
`fps = 0.5` with `frame_interval = 1`) and five total frames. -/
def zeroStrideOracle : MediaOracle := ⟨true, true, 0, 5, fun _ => true⟩

/-- A concrete run configuration: the output folder
`UPLOAD_DIR / upload_id` built by `extract_zip_sync` (main.py line 112),
with the default `max_frames_per_video = 100`. -/
def cxConfig : Config := ⟨testUuids, UPLOAD_DIR ++ "/run0", 100⟩

/-! ### Lemmas: frame-index calculation -/

theorem strDataInj {s t : String} (h : s.data = t.data) : s = t := String.ext h

theorem calcLoop_eq_append_take (maxF : Nat) :
    ∀ (l acc : List Nat), calcLoop maxF acc l = acc ++ l.take (maxF - acc.length) := by
  intro l
  induction l with
  | nil => intro acc; simp [calcLoop]
  | cons i rest ih =>
    intro acc
    unfold calcLoop
    by_cases h : maxF ≤ acc.length
    · rw [if_pos h]
      have : maxF - acc.length = 0 := Nat.sub_eq_zero_of_le h
      simp [this]
    · rw [if_neg h]
      rw [ih]
      have hlen : (acc ++ [i]).length = acc.length + 1 := by simp
      have hsub : maxF - acc.length = (maxF - (acc.length + 1)) + 1 := by omega
      rw [hlen, hsub, List.take_succ_cons, List.append_assoc, List.singleton_append]

theorem calculateFrameIndices_eq (N total maxF : Nat) (hN : 0 < N) :
    calculateFrameIndices N total maxF
      = Except.ok ((List.range (min ((total + N - 1) / N) maxF)).map (fun i => i * N)) := by
  unfold calculateFrameIndices
  rw [if_neg (Nat.pos_iff_ne_zero.mp hN)]
  rw [calcLoop_eq_append_take]
  have hrange : pyRange 0 total N = (List.range ((total + N - 1) / N)).map (fun i => i * N) := by
    simp [pyRange]
  rw [List.nil_append, hrange, List.length_nil, Nat.sub_zero, ← List.map_take,
    List.take_range, Nat.min_comm]

theorem calculateFrameIndices_length_le (N total maxF : Nat) (l : List Nat)
    (h : calculateFrameIndices N total maxF = Except.ok l) : l.length ≤ maxF := by
  unfold calculateFrameIndices at h
  by_cases hN : N = 0
  · rw [if_pos hN] at h; cases h
  · rw [if_neg hN] at h
    have hl : l = calcLoop maxF [] (pyRange 0 total N) := by
      cases h; rfl
    rw [hl, calcLoop_eq_append_take, List.nil_append, List.length_nil, Nat.sub_zero,
      List.length_take]
    exact Nat.min_le_left _ _

/-! ### Lemmas: the video frame loop -/

theorem videoLoop_length_le (dir tag : String) (maxF : Nat) (fOk : Nat → Bool) :
    ∀ (l : List Nat) (i : Nat), (videoLoop dir tag maxF fOk i l).length ≤ maxF - i := by
  intro l
  induction l with
  | nil => intro i; simp [videoLoop]
  | cons idx rest ih =>
    intro i
    unfold videoLoop
    by_cases h : maxF ≤ i
    · rw [if_pos h]; simp
    · rw [if_neg h]
      by_cases hf : fOk idx
      · rw [if_pos hf]
        have := ih (i + 1)
        simp only [List.length_cons]
        omega
      · rw [if_neg hf]
        have := ih (i + 1)
        omega

theorem processVideo_length_le (dir u : String) (maxF : Nat) (f : SrcFile) :
    (processVideo dir u maxF f).length ≤ maxF := by
  unfold processVideo
  by_cases ho : f.media.openOk
  · rw [if_pos ho]
    cases hc : calculateFrameIndices f.media.stepN f.media.totalFrames maxF with
    | error e => simp
    | ok indices =>
      simp only []
      have := videoLoop_length_le dir (u ++ "_" ++ pathStem f.name) maxF f.media.frameOk indices 0
      omega
  · rw [if_neg ho]; simp

theorem mem_videoLoop (dir tag : String) (maxF : Nat) (fOk : Nat → Bool) :
    ∀ (l : List Nat) (i : Nat) (p : String), p ∈ videoLoop dir tag maxF fOk i l →
      ∃ j, i ≤ j ∧ j < maxF ∧ p = dir ++ "/" ++ frameFilename tag j := by
  intro l
  induction l with
  | nil => intro i p hp; simp [videoLoop] at hp
  | cons idx rest ih =>
    intro i p hp
    unfold videoLoop at hp
    by_cases h : maxF ≤ i
    · rw [if_pos h] at hp; simp at hp
    · rw [if_neg h] at hp
      by_cases hf : fOk idx
      · rw [if_pos hf] at hp
        rcases List.mem_cons.mp hp with heq | hmem
        · exact ⟨i, Nat.le_refl i, Nat.lt_of_not_le h, heq⟩
        · obtain ⟨j, hj1, hj2, hj3⟩ := ih (i + 1) p hmem
          exact ⟨j, by omega, hj2, hj3⟩
      · rw [if_neg hf] at hp
        obtain ⟨j, hj1, hj2, hj3⟩ := ih (i + 1) p hp
        exact ⟨j, by omega, hj2, hj3⟩

theorem mem_processVideo (dir u : String) (maxF : Nat) (f : SrcFile) (p : String)
    (hp : p ∈ processVideo dir u maxF f) :
    ∃ j, j < maxF ∧ p = dir ++ "/" ++ frameFilename (u ++ "_" ++ pathStem f.name) j := by
  unfold processVideo at hp
  by_cases ho : f.media.openOk
  · rw [if_pos ho] at hp
    cases hc : calculateFrameIndices f.media.stepN f.media.totalFrames maxF with
    | error e => rw [hc] at hp; simp at hp
    | ok indices =>
      rw [hc] at hp
      obtain ⟨j, _, hj2, hj3⟩ := mem_videoLoop dir _ maxF f.media.frameOk indices 0 p hp
      exact ⟨j, hj2, hj3⟩
  · rw [if_neg ho] at hp; simp at hp

/-! ### Lemmas: the per-file walk -/

theorem video_ext_not_image {name : String} (h : isVideoFile name = true) :
    isImageFile name = false := by
  unfold isVideoFile at h
  unfold isImageFile
  have hmem : fileExt name ∈ supportedVideoExtensions := by
    simpa [List.contains, List.elem_iff] using h
  have hdisj : ∀ s ∈ supportedVideoExtensions,
      supportedImageExtensions.contains s = false := by decide
  exact hdisj (fileExt name) hmem

theorem processFiles_cons_image_ok (cfg : Config) (c : Nat) (f : SrcFile)
    (rest : List SrcFile) (himg : isImageFile f.name = true)
    (hok : f.media.copyOk = true) :
    processFiles cfg c (f :: rest)
      = (cfg.outputDir ++ "/" ++ (cfg.uuids c ++ "_" ++ f.name))
          :: processFiles cfg (c + 1) rest := by
  simp [processFiles, himg, processImage, hok]

theorem processFiles_cons_image_fail (cfg : Config) (c : Nat) (f : SrcFile)
    (rest : List SrcFile) (himg : isImageFile f.name = true)
    (hfail : f.media.copyOk = false) :
    processFiles cfg c (f :: rest) = processFiles cfg (c + 1) rest := by
  simp [processFiles, himg, processImage, hfail]

theorem processFiles_cons_video (cfg : Config) (c : Nat) (f : SrcFile)
    (rest : List SrcFile) (hvid : isVideoFile f.name = true) :
    processFiles cfg c (f :: rest)
      = processVideo cfg.outputDir (cfg.uuids c) cfg.maxFramesPerVideo f
          ++ processFiles cfg (c + 1) rest := by
  simp [processFiles, video_ext_not_image hvid, hvid]

theorem processFiles_cons_other (cfg : Config) (c : Nat) (f : SrcFile)
    (rest : List SrcFile) (himg : isImageFile f.name = false)
    (hvid : isVideoFile f.name = false) :
    processFiles cfg c (f :: rest) = processFiles cfg c rest := by
  simp [processFiles, himg, hvid]

theorem processFiles_append (cfg : Config) :
    ∀ (l1 l2 : List SrcFile) (c : Nat),
      processFiles cfg c (l1 ++ l2)
        = processFiles cfg c l1 ++ processFiles cfg (c + uuidCalls l1) l2 := by
  intro l1
  induction l1 with
  | nil =>
    intro l2 c
    simp [processFiles, uuidCalls]
  | cons f rest ih =>
    intro l2 c
    rw [List.cons_append]
    by_cases himg : isImageFile f.name
    · have hcall : uuidCalls (f :: rest) = 1 + uuidCalls rest := by
        simp [uuidCalls, himg]
      cases hco : f.media.copyOk with
      | true =>
        rw [processFiles_cons_image_ok cfg c f (rest ++ l2) himg hco,
          processFiles_cons_image_ok cfg c f rest himg hco,
          ih l2 (c + 1), hcall, List.cons_append]
        have : c + 1 + uuidCalls rest = c + (1 + uuidCalls rest) := by omega
        rw [this]
      | false =>
        rw [processFiles_cons_image_fail cfg c f (rest ++ l2) himg hco,
          processFiles_cons_image_fail cfg c f rest himg hco,
          ih l2 (c + 1), hcall]
        have : c + 1 + uuidCalls rest = c + (1 + uuidCalls rest) := by omega
        rw [this]
    · by_cases hvid : isVideoFile f.name
      · have hcall : uuidCalls (f :: rest) = 1 + uuidCalls rest := by
          simp [uuidCalls, hvid]
        rw [processFiles_cons_video cfg c f (rest ++ l2) hvid,
          processFiles_cons_video cfg c f rest hvid,
          ih l2 (c + 1), hcall, List.append_assoc]
        have : c + 1 + uuidCalls rest = c + (1 + uuidCalls rest) := by omega
        rw [this]
      · have hcall : uuidCalls (f :: rest) = uuidCalls rest := by
          simp [uuidCalls, himg, hvid]
        rw [processFiles_cons_other cfg c f (rest ++ l2) (by simpa using himg)
            (by simpa using hvid),
          processFiles_cons_other cfg c f rest (by simpa using himg)
            (by simpa using hvid),
          ih l2 c, hcall]

theorem processFiles_cons_skip (cfg : Config) (c : Nat) (f : SrcFile) (rest : List SrcFile)
    (hfail : (isImageFile f.name = true ∧ f.media.copyOk = false)
           ∨ (isVideoFile f.name = true ∧ f.media.openOk = false)) :
    processFiles cfg c (f :: rest) = processFiles cfg (c + 1) rest := by
  rcases hfail with ⟨himg, hcopy⟩ | ⟨hvid, hopen⟩
  · exact processFiles_cons_image_fail cfg c f rest himg hcopy
  · rw [processFiles_cons_video cfg c f rest hvid]
    have : processVideo cfg.outputDir (cfg.uuids c) cfg.maxFramesPerVideo f = [] := by
      unfold processVideo
      rw [hopen]
      simp
    rw [this, List.nil_append]

/-! ### Lemmas: distinctness of emitted names -/

theorem frame_outName (cfg : Config) (k : Nat) (stem : String) (j : Nat) :
    cfg.outputDir ++ "/" ++ frameFilename (cfg.uuids k ++ "_" ++ stem) j
      = outName cfg k (stem ++ "_frame_" ++ pad4 j ++ ".jpg") := by
  unfold outName frameFilename
  apply strDataInj
  simp [String.data_append, List.append_assoc]

theorem append_underscore_inj :
    ∀ (l1 l2 r1 r2 : List Char), '_' ∉ l1 → '_' ∉ l2 →
      l1 ++ '_' :: r1 = l2 ++ '_' :: r2 → l1 = l2 ∧ r1 = r2 := by
  intro l1
  induction l1 with
  | nil =>
    intro l2 r1 r2 _ h2 heq
    cases l2 with
    | nil => simpa using heq
    | cons c cs =>
      rw [List.nil_append, List.cons_append] at heq
      have : c = '_' := (List.cons.injEq _ _ _ _ ▸ heq).1.symm
      exact absurd (this ▸ List.mem_cons_self c cs) h2
  | cons c cs ih =>
    intro l2 r1 r2 h1 h2 heq
    cases l2 with
    | nil =>
      rw [List.nil_append, List.cons_append] at heq
      have : c = '_' := (List.cons.injEq _ _ _ _ ▸ heq).1
      exact absurd (this ▸ List.mem_cons_self c cs) h1
    | cons d ds =>
      rw [List.cons_append, List.cons_append] at heq
      have hcd : c = d := (List.cons.injEq _ _ _ _ ▸ heq).1
      have htail : cs ++ '_' :: r1 = ds ++ '_' :: r2 := (List.cons.injEq _ _ _ _ ▸ heq).2
      have h1' : '_' ∉ cs := fun hm => h1 (List.mem_cons_of_mem c hm)
      have h2' : '_' ∉ ds := fun hm => h2 (List.mem_cons_of_mem d hm)
      obtain ⟨hl, hr⟩ := ih ds r1 r2 h1' h2' htail
      exact ⟨by rw [hcd, hl], hr⟩

theorem outName_ne_of_uuid_ne (cfg : Config)
    (hinj : Function.Injective cfg.uuids)
    (hu : ∀ k, '_' ∉ (cfg.uuids k).data)
    {k1 k2 : Nat} (t1 t2 : String) (hk : k1 ≠ k2) :
    outName cfg k1 t1 ≠ outName cfg k2 t2 := by
  intro h
  have hdata := congrArg String.data h
  simp only [outName, String.data_append, List.append_assoc] at hdata
  have hcore := List.append_cancel_left hdata
  have hsplit : (cfg.uuids k1).data ++ '_' :: t1.data
      = (cfg.uuids k2).data ++ '_' :: t2.data := by
    simpa [List.append_assoc] using hcore
  obtain ⟨huu, _⟩ := append_underscore_inj _ _ _ _ (hu k1) (hu k2) hsplit
  exact hk (hinj (strDataInj huu))

theorem frame_ne_of_index_ne (pre tag : String) {i j : Nat} (hij : i ≠ j) :
    pre ++ frameFilename tag i ≠ pre ++ frameFilename tag j := by
  intro h
  have hdata := congrArg String.data h
  simp only [frameFilename, String.data_append, List.append_assoc] at hdata
  have h1 := List.append_cancel_left hdata
  have h2 := List.append_cancel_left h1
  have h3 := List.append_cancel_left h2
  have h4 := List.append_cancel_right h3
  exact hij (pad4_injective (strDataInj h4))

theorem videoLoop_pairwise (dir tag : String) (maxF : Nat) (fOk : Nat → Bool) :
    ∀ (l : List Nat) (i : Nat),
      (videoLoop dir tag maxF fOk i l).Pairwise (fun a b => a ≠ b) := by
  intro l
  induction l with
  | nil => intro i; simp [videoLoop]
  | cons idx rest ih =>
    intro i
    unfold videoLoop
    by_cases h : maxF ≤ i
    · rw [if_pos h]; exact List.Pairwise.nil
    · rw [if_neg h]
      by_cases hf : fOk idx
      · rw [if_pos hf]
        rw [List.pairwise_cons]
        refine ⟨?_, ih (i + 1)⟩
        intro q hq
        obtain ⟨j, hj1, _, hj3⟩ := mem_videoLoop dir tag maxF fOk rest (i + 1) q hq
        rw [hj3]
        have hne : i ≠ j := by omega
        exact frame_ne_of_index_ne (dir ++ "/") tag hne
      · rw [if_neg hf]
        exact ih (i + 1)

theorem processVideo_pairwise (dir u : String) (maxF : Nat) (f : SrcFile) :
    (processVideo dir u maxF f).Pairwise (fun a b => a ≠ b) := by
  unfold processVideo
  by_cases ho : f.media.openOk
  · rw [if_pos ho]
    cases calculateFrameIndices f.media.stepN f.media.totalFrames maxF with
    | error e => exact List.Pairwise.nil
    | ok indices => exact videoLoop_pairwise dir _ maxF f.media.frameOk indices 0
  · rw [if_neg ho]; exact List.Pairwise.nil

theorem mem_processVideo_outName (cfg : Config) (k maxF : Nat) (f : SrcFile) (p : String)
    (hp : p ∈ processVideo cfg.outputDir (cfg.uuids k) maxF f) :
    ∃ t, p = outName cfg k t := by
  obtain ⟨j, _, hj⟩ := mem_processVideo cfg.outputDir (cfg.uuids k) maxF f p hp
  exact ⟨pathStem f.name ++ "_frame_" ++ pad4 j ++ ".jpg",
    by rw [hj, frame_outName]⟩

theorem mem_processFiles (cfg : Config) :
    ∀ (files : List SrcFile) (c : Nat) (p : String), p ∈ processFiles cfg c files →
      ∃ k t, c ≤ k ∧ p = outName cfg k t := by
  intro files
  induction files with
  | nil => intro c p hp; simp [processFiles] at hp
  | cons f rest ih =>
    intro c p hp
    by_cases himg : isImageFile f.name
    · cases hco : f.media.copyOk with
      | true =>
        rw [processFiles_cons_image_ok cfg c f rest himg hco] at hp
        rcases List.mem_cons.mp hp with heq | hmem
        · exact ⟨c, f.name, Nat.le_refl c, heq⟩
        · obtain ⟨k, t, hk, ht⟩ := ih (c + 1) p hmem
          exact ⟨k, t, by omega, ht⟩
      | false =>
        rw [processFiles_cons_image_fail cfg c f rest himg hco] at hp
        obtain ⟨k, t, hk, ht⟩ := ih (c + 1) p hp
        exact ⟨k, t, by omega, ht⟩
    · by_cases hvid : isVideoFile f.name
      · rw [processFiles_cons_video cfg c f rest hvid] at hp
        rcases List.mem_append.mp hp with hmem | hmem
        · obtain ⟨t, ht⟩ := mem_processVideo_outName cfg c cfg.maxFramesPerVideo f p hmem
          exact ⟨c, t, Nat.le_refl c, ht⟩
        · obtain ⟨k, t, hk, ht⟩ := ih (c + 1) p hmem
          exact ⟨k, t, by omega, ht⟩
      · rw [processFiles_cons_other cfg c f rest (by simpa using himg)
          (by simpa using hvid)] at hp
        exact ih c p hp

theorem processFiles_pairwise (cfg : Config)
    (hinj : Function.Injective cfg.uuids)
    (hu : ∀ k, '_' ∉ (cfg.uuids k).data) :
    ∀ (files : List SrcFile) (c : Nat),
      (processFiles cfg c files).Pairwise (fun a b => a ≠ b) := by
  intro files
  induction files with
  | nil => intro c; simp [processFiles]
  | cons f rest ih =>
    intro c
    by_cases himg : isImageFile f.name
    · cases hco : f.media.copyOk with
      | true =>
        rw [processFiles_cons_image_ok cfg c f rest himg hco, List.pairwise_cons]
        refine ⟨?_, ih (c + 1)⟩
        intro q hq
        obtain ⟨k, t, hk, ht⟩ := mem_processFiles cfg rest (c + 1) q hq
        rw [ht]
        have hshape : cfg.outputDir ++ "/" ++ (cfg.uuids c ++ "_" ++ f.name)
            = outName cfg c f.name := rfl
        rw [hshape]
        exact outName_ne_of_uuid_ne cfg hinj hu f.name t (by omega)
      | false =>
        rw [processFiles_cons_image_fail cfg c f rest himg hco]
        exact ih (c + 1)
    · by_cases hvid : isVideoFile f.name
      · rw [processFiles_cons_video cfg c f rest hvid, List.pairwise_append]
        refine ⟨processVideo_pairwise cfg.outputDir (cfg.uuids c) cfg.maxFramesPerVideo f,
          ih (c + 1), ?_⟩
        intro a ha b hb
        obtain ⟨t1, ht1⟩ := mem_processVideo_outName cfg c cfg.maxFramesPerVideo f a ha
        obtain ⟨k, t2, hk, ht2⟩ := mem_processFiles cfg rest (c + 1) b hb
        rw [ht1, ht2]
        exact outName_ne_of_uuid_ne cfg hinj hu t1 t2 (by omega)
      · rw [processFiles_cons_other cfg c f rest (by simpa using himg)
          (by simpa using hvid)]
        exact ih c

theorem testUuids_injective : Function.Injective testUuids := by
  intro a b h
  have hlen := congrArg (fun s : String => s.data.length) h
  simpa [testUuids] using hlen

theorem testUuids_no_underscore : ∀ k, '_' ∉ (testUuids k).data := by
  intro k hmem
  simp only [testUuids] at hmem
  rcases List.mem_cons.mp hmem with h | h
  · exact absurd h (by decide)
  · exact absurd (List.eq_of_mem_replicate h) (by decide)

/-! ### The claims -/

/-- Claim C1, counterexample.  The claim says an image file is copied
under the collision-scheme name `name`, `name_1`, `name_2`, ...; on the
very first image copied into a fresh output directory that scheme
produces the original name `a.jpg`, but `_process_image` actually writes
`<uuid4>_a.jpg` (media_processor.py line 210). -/
theorem imageCopyNameNotNumericScheme :
    processFiles cxConfig 0 [⟨"a.jpg", imgOracle⟩] = ["static/images/run0/u_a.jpg"]
      ∧ processFiles cxConfig 0 [⟨"a.jpg", imgOracle⟩] ≠ ["static/images/run0/a.jpg"] := by
  constructor
  · decide
  · decide

/-- Claim C1, amended.  Every image file that copies successfully is
written into the output directory under the collision-avoiding name
`f"{uuid4()}_{original_name}"` — a fresh-uuid prefix, not a numeric
`name_1`, `name_2` suffix scheme — and the walk then continues with the
remaining files. -/
theorem imageCopyUuidPrefixedName (cfg : Config) (c : Nat) (f : SrcFile)
    (rest : List SrcFile) (himg : isImageFile f.name = true)
    (hok : f.media.copyOk = true) :
    processFiles cfg c (f :: rest)
      = (cfg.outputDir ++ "/" ++ (cfg.uuids c ++ "_" ++ f.name))
          :: processFiles cfg (c + 1) rest :=
  processFiles_cons_image_ok cfg c f rest himg hok

/-- Witness for `imageCopyUuidPrefixedName` at a concrete image file. -/
theorem imageCopyUuidPrefixedName_witness :
    isImageFile "a.jpg" = true
      ∧ (⟨"a.jpg", imgOracle⟩ : SrcFile).media.copyOk = true
      ∧ processFiles cxConfig 0 [⟨"a.jpg", imgOracle⟩]
          = (cxConfig.outputDir ++ "/" ++ (cxConfig.uuids 0 ++ "_" ++ "a.jpg"))
              :: processFiles cxConfig 1 [] :=
  ⟨by decide, by decide,
    imageCopyUuidPrefixedName cxConfig 0 ⟨"a.jpg", imgOracle⟩ [] (by decide) (by decide)⟩

/-- Claim C2, counterexample.  The claim says each emitted frame file is
named `<video-stem>_frame_<index>.jpg`.  For a healthy one-frame video
`vid.mp4` the emitted filename is `u_vid_frame_0000.jpg` (uuid prefix
from media_processor.py line 245), which does not match
`vid_frame_<anything>`. -/
theorem videoFrameNameNotStemPattern :
    processVideo "d" "u" 100 ⟨"vid.mp4", vidOracle⟩ = ["d/u_vid_frame_0000.jpg"]
      ∧ ¬ ∃ t : String, "u_vid_frame_0000.jpg" = "vid_frame_" ++ t := by
  constructor
  · decide
  · rintro ⟨t, ht⟩
    have hd := congrArg String.data ht
    rw [String.data_append] at hd
    have hd' : 'u' :: "_vid_frame_0000.jpg".data
        = 'v' :: ("id_frame_".data ++ t.data) := hd
    injection hd' with h1 _
    exact absurd h1 (by decide)

/-- Claim C2, amended.  Every path `_process_video` emits is
`output_dir / f"{uuid4()}_{video_stem}_frame_{i:04d}.jpg"`, where `i` is
the frame's position in the emission enumeration (below
`max_frames_per_video`); the stem is prefixed by the video's fresh uuid,
and the index is zero-padded to four digits. -/
theorem videoFrameNamesUuidStemIndexed (dir u : String) (maxF : Nat) (f : SrcFile)
    (p : String) (hp : p ∈ processVideo dir u maxF f) :
    ∃ i, i < maxF
      ∧ p = dir ++ "/" ++ ((u ++ "_" ++ pathStem f.name) ++ "_frame_" ++ pad4 i ++ ".jpg") :=
  mem_processVideo dir u maxF f p hp

/-- Witness for `videoFrameNamesUuidStemIndexed` at a concrete video. -/
theorem videoFrameNamesUuidStemIndexed_witness :
    "d/u_vid_frame_0000.jpg" ∈ processVideo "d" "u" 100 ⟨"vid.mp4", vidOracle⟩
      ∧ ∃ i, i < 100
        ∧ "d/u_vid_frame_0000.jpg"
            = "d" ++ "/" ++ (("u" ++ "_" ++ pathStem "vid.mp4") ++ "_frame_" ++ pad4 i ++ ".jpg") :=
  ⟨by decide,
    videoFrameNamesUuidStemIndexed "d" "u" 100 ⟨"vid.mp4", vidOracle⟩
      "d/u_vid_frame_0000.jpg" (by decide)⟩

/-- Claim C3: with `N = int(fps * frame_interval) > 0`, the calculated
frame indices are exactly the multiples `0, N, 2N, ...` below
`total_frames = int(duration * fps)`, truncated to the first
`max_frames_per_video` of them; any successfully calculated index list
has length at most `max_frames_per_video`, and the frames a video
actually emits never number more than `max_frames_per_video`. -/
theorem frameSamplingEveryNthCapped (N total maxF : Nat) (hN : 0 < N) :
    calculateFrameIndices N total maxF
        = Except.ok ((List.range (min ((total + N - 1) / N) maxF)).map (fun i => i * N))
      ∧ (∀ l, calculateFrameIndices N total maxF = Except.ok l → l.length ≤ maxF)
      ∧ (∀ (dir u : String) (f : SrcFile), (processVideo dir u maxF f).length ≤ maxF) :=
  ⟨calculateFrameIndices_eq N total maxF hN,
    fun l h => calculateFrameIndices_length_le N total maxF l h,
    fun dir u f => processVideo_length_le dir u maxF f⟩

/-- Witness for `frameSamplingEveryNthCapped`: a 10-frame video sampled
with stride 2 and cap 3 yields indices `[0, 2, 4]`. -/
theorem frameSamplingEveryNthCapped_witness :
    (0 < 2
      ∧ calculateFrameIndices 2 10 3
          = Except.ok ((List.range (min ((10 + 2 - 1) / 2) 3)).map (fun i => i * 2)))
      ∧ calculateFrameIndices 2 10 3 = Except.ok [0, 2, 4] :=
  ⟨⟨by decide, (frameSamplingEveryNthCapped 2 10 3 (by decide)).1⟩, by decide⟩

/-- Claim C4: a file whose processing fails (an image whose copy raises,
or a video whose open raises) contributes nothing, and the walk still
processes every file before and after it, returning exactly the
successfully written paths of the rest. -/
theorem failedFileSkippedRestContinues (cfg : Config) (c : Nat) (pre : List SrcFile)
    (f : SrcFile) (rest : List SrcFile)
    (hfail : (isImageFile f.name = true ∧ f.media.copyOk = false)
           ∨ (isVideoFile f.name = true ∧ f.media.openOk = false)) :
    processFiles cfg c (pre ++ f :: rest)
      = processFiles cfg c pre ++ processFiles cfg (c + uuidCalls pre + 1) rest := by
  rw [processFiles_append cfg pre (f :: rest) c,
    processFiles_cons_skip cfg (c + uuidCalls pre) f rest hfail]

/-- Witness for `failedFileSkippedRestContinues`: the failing copy of
`b.jpg` is skipped while `a.jpg` before it and `c.png` after it are
written. -/
theorem failedFileSkippedRestContinues_witness :
    (isImageFile "b.jpg" = true ∧ (⟨"b.jpg", badImgOracle⟩ : SrcFile).media.copyOk = false)
      ∧ processFiles cxConfig 0
          ([⟨"a.jpg", imgOracle⟩] ++ ⟨"b.jpg", badImgOracle⟩ :: [⟨"c.png", imgOracle⟩])
          = processFiles cxConfig 0 [⟨"a.jpg", imgOracle⟩]
              ++ processFiles cxConfig (0 + uuidCalls [⟨"a.jpg", imgOracle⟩] + 1)
                  [⟨"c.png", imgOracle⟩]
      ∧ processFiles cxConfig 0
          [⟨"a.jpg", imgOracle⟩, ⟨"b.jpg", badImgOracle⟩, ⟨"c.png", imgOracle⟩]
          = ["static/images/run0/u_a.jpg", "static/images/run0/uxx_c.png"] :=
  ⟨⟨by decide, by decide⟩,
    failedFileSkippedRestContinues cxConfig 0 [⟨"a.jpg", imgOracle⟩]
      ⟨"b.jpg", badImgOracle⟩ [⟨"c.png", imgOracle⟩] (Or.inl ⟨by decide, by decide⟩),
    by decide⟩

/-- Claim C5: when unpacking the archive itself fails, `process` writes
nothing and re-raises the extraction error to its caller. -/
theorem extractFailureAbortsWholeRun (cfg : Config) (e : String) :
    process cfg (ZipOutcome.extractError e)
      = (⟨false, []⟩, Except.error e) := rfl

/-- Claim C6, counterexample.  The claim says every returned path is
absolute; but `upload_folder` is built from the relative
`UPLOAD_DIR = Path("static/images")` (main.py lines 35 and 112), so the
paths `process` returns are relative. -/
theorem returnedPathNotAbsolute :
    process cxConfig (ZipOutcome.ok [⟨"a.jpg", imgOracle⟩])
        = (⟨false, ["static/images/run0/u_a.jpg"]⟩,
            Except.ok ["static/images/run0/u_a.jpg"])
      ∧ isAbsolutePath "static/images/run0/u_a.jpg" = false := by
  constructor
  · decide
  · decide

/-- Claim C6, amended.  `process` returns exactly the written paths in
insertion (walk) order — the outputs of earlier files precede those of
later ones — and every returned path is the configured output directory
joined with the written filename: absolute only when that directory is
absolute, which main.py's `UPLOAD_DIR` is not. -/
theorem processReturnsPathsInOrderPrefixed (cfg : Config) (c : Nat)
    (files l1 l2 : List SrcFile) :
    process cfg (ZipOutcome.ok files)
        = (⟨false, processFiles cfg 0 files⟩, Except.ok (processFiles cfg 0 files))
      ∧ processFiles cfg c (l1 ++ l2)
          = processFiles cfg c l1 ++ processFiles cfg (c + uuidCalls l1) l2
      ∧ ∀ p ∈ processFiles cfg c l1, ∃ nm, p = cfg.outputDir ++ "/" ++ nm := by
  refine ⟨rfl, processFiles_append cfg l1 l2 c, ?_⟩
  intro p hp
  obtain ⟨k, t, _, ht⟩ := mem_processFiles cfg l1 c p hp
  exact ⟨cfg.uuids k ++ "_" ++ t, ht⟩

/-- Witness for `processReturnsPathsInOrderPrefixed` at a concrete run. -/
theorem processReturnsPathsInOrderPrefixed_witness :
    "static/images/run0/u_a.jpg" ∈ processFiles cxConfig 0 [⟨"a.jpg", imgOracle⟩]
      ∧ ∃ nm, "static/images/run0/u_a.jpg" = cxConfig.outputDir ++ "/" ++ nm :=
  ⟨by decide,
    (processReturnsPathsInOrderPrefixed cxConfig 0 [] [⟨"a.jpg", imgOracle⟩] []).2.2
      "static/images/run0/u_a.jpg" (by decide)⟩

/-- Claim C7: with the uuid supply injective and underscore-free (as
`uuid4` hex strings are), all paths written in one run are pairwise
distinct — no output filename is ever reused within the run. -/
theorem outputFilenamesNeverReusedWithinRun (cfg : Config)
    (hinj : Function.Injective cfg.uuids)
    (hu : ∀ k, '_' ∉ (cfg.uuids k).data)
    (files : List SrcFile) (c : Nat) :
    (processFiles cfg c files).Pairwise (fun a b => a ≠ b) :=
  processFiles_pairwise cfg hinj hu files c

/-- Witness for `outputFilenamesNeverReusedWithinRun`: two images with
the same original name plus a video, all disambiguated. -/
theorem outputFilenamesNeverReusedWithinRun_witness :
    (processFiles cxConfig 0
        [⟨"a.jpg", imgOracle⟩, ⟨"vid.mp4", vidOracle⟩, ⟨"a.jpg", imgOracle⟩]).Pairwise
        (fun a b => a ≠ b)
      ∧ processFiles cxConfig 0
          [⟨"a.jpg", imgOracle⟩, ⟨"vid.mp4", vidOracle⟩, ⟨"a.jpg", imgOracle⟩]
          = ["static/images/run0/u_a.jpg", "static/images/run0/ux_vid_frame_0000.jpg",
              "static/images/run0/uxx_a.jpg"] :=
  ⟨outputFilenamesNeverReusedWithinRun cxConfig testUuids_injective
      testUuids_no_underscore
      [⟨"a.jpg", imgOracle⟩, ⟨"vid.mp4", vidOracle⟩, ⟨"a.jpg", imgOracle⟩] 0,
    by decide⟩

/-- Claim C8: whatever the zip outcome, once `process` finishes — normally
after `shutil.rmtree`, or by re-raising after `_extract_zip` cleaned up —
the scratch extraction directory no longer exists. -/
theorem scratchDirRemovedAfterRun (cfg : Config) (z : ZipOutcome) :
    (process cfg z).1.scratchExists = false := by
  cases z <;> rfl

/-- Claim C9: the upload endpoints accept exactly the requests whose
filename lower-cases to a `.zip` suffix and whose sampling factor lies in
`[0, 1]`, and every rejection they issue carries status 400. -/
theorem uploadValidationZipAndRange (fn : Option String) (sf : ℚ) :
    (validateUpload fn sf = UploadDecision.accepted
        ↔ (∃ s, fn = some s ∧ strEndsWith (strLower s) ".zip" = true) ∧ 0 ≤ sf ∧ sf ≤ 1)
      ∧ ∀ code msg, validateUpload fn sf = UploadDecision.rejected code msg → code = 400 := by
  unfold validateUpload
  by_cases hrej : filenameRejected fn = true
  · rw [if_pos hrej]
    constructor
    · constructor
      · intro h
        exact absurd h (by simp)
      · rintro ⟨⟨s, hs, hz⟩, _⟩
        subst hs
        unfold filenameRejected at hrej
        simp only [Bool.or_eq_true, Bool.not_eq_true'] at hrej
        rcases hrej with h1 | h2
        · have hse : s = "" := eq_of_beq h1
          subst hse
          exact absurd hz (by decide)
        · rw [hz] at h2
          cases h2
    · intro code msg h
      injection h with h1 _
      exact h1.symm
  · rw [if_neg hrej]
    by_cases hr : 0 ≤ sf ∧ sf ≤ 1
    · rw [if_neg (not_not_intro hr)]
      constructor
      · constructor
        · intro _
          refine ⟨?_, hr⟩
          cases fn with
          | none => exact absurd rfl hrej
          | some s =>
            refine ⟨s, rfl, ?_⟩
            unfold filenameRejected at hrej
            by_cases hz : strEndsWith (strLower s) ".zip" = true
            · exact hz
            · have hzf : strEndsWith (strLower s) ".zip" = false := by
                cases hcase : strEndsWith (strLower s) ".zip"
                · rfl
                · exact absurd hcase hz
              exact absurd (by simp [hzf]) hrej
        · intro _
          rfl
      · intro code msg h
        exact absurd h (by simp)
    · rw [if_pos hr]
      constructor
      · constructor
        · intro h
          exact absurd h (by simp)
        · rintro ⟨_, h1, h2⟩
          exact absurd ⟨h1, h2⟩ hr
      · intro code msg h
        injection h with h1 _
        exact h1.symm

/-- Witness for `uploadValidationZipAndRange`: a `.ZIP` upload with
factor 1 is accepted; a `.txt` upload is rejected with 400. -/
theorem uploadValidationZipAndRange_witness :
    validateUpload (some "photos.ZIP") 1 = UploadDecision.accepted
      ∧ (400 : Nat) = 400 :=
  ⟨(uploadValidationZipAndRange (some "photos.ZIP") 1).1.mpr
      ⟨⟨"photos.ZIP", rfl, by decide⟩, by decide, by decide⟩,
    (uploadValidationZipAndRange (some "a.txt") 1).2 400 "File must be a zip file"
      (by decide)⟩

/-- Claim C10: a video with `int(fps * frame_interval) = 0` and a
positive frame count makes `_calculate_frame_indices` raise (zero step in
`range`), `_process_video` catches it and returns no frames, and the walk
continues with the remaining files. -/
theorem zeroStrideVideoSkippedSafely (cfg : Config) (c : Nat) (f : SrcFile)
    (rest : List SrcFile) (hvid : isVideoFile f.name = true)
    (hstep : f.media.stepN = 0) (htot : 0 < f.media.totalFrames) :
    (∃ msg, calculateFrameIndices f.media.stepN f.media.totalFrames cfg.maxFramesPerVideo
        = Except.error msg)
      ∧ processVideo cfg.outputDir (cfg.uuids c) cfg.maxFramesPerVideo f = []
      ∧ processFiles cfg c (f :: rest) = processFiles cfg (c + 1) rest := by
  have hcalc : calculateFrameIndices f.media.stepN f.media.totalFrames cfg.maxFramesPerVideo
      = Except.error "range() arg 3 must not be zero" := by
    unfold calculateFrameIndices
    rw [hstep]
    simp
  have hpv : processVideo cfg.outputDir (cfg.uuids c) cfg.maxFramesPerVideo f = [] := by
    unfold processVideo
    by_cases ho : f.media.openOk
    · rw [if_pos ho, hcalc]
    · rw [if_neg ho]
  refine ⟨⟨_, hcalc⟩, hpv, ?_⟩
  rw [processFiles_cons_video cfg c f rest hvid, hpv, List.nil_append]

/-- Witness for `zeroStrideVideoSkippedSafely` at a concrete
zero-stride video. -/
theorem zeroStrideVideoSkippedSafely_witness :
    (isVideoFile "vid.mp4" = true
        ∧ (⟨"vid.mp4", zeroStrideOracle⟩ : SrcFile).media.stepN = 0
        ∧ 0 < (⟨"vid.mp4", zeroStrideOracle⟩ : SrcFile).media.totalFrames)
      ∧ processVideo cxConfig.outputDir (cxConfig.uuids 0) cxConfig.maxFramesPerVideo
          ⟨"vid.mp4", zeroStrideOracle⟩ = []
      ∧ processFiles cxConfig 0 [⟨"vid.mp4", zeroStrideOracle⟩] = [] :=
  ⟨⟨by decide, by decide, by decide⟩,
    (zeroStrideVideoSkippedSafely cxConfig 0 ⟨"vid.mp4", zeroStrideOracle⟩ []
        (by decide) (by decide) (by decide)).2.1,
    by decide⟩

end CoresetSelection
